import Mathlib

/-!
Shallow embedding of the event-extraction core of collect_events.py
(Texas Cyber Events Monitor).  Python strings are modelled by Lean
strings, with character-level work done on the underlying lists of
characters.  The three date patterns and the time pattern of the source
are modelled by explicit leftmost-match scanners that follow the
backtracking order of the Python re engine on those concrete patterns.
Python datetime construction, which raises ValueError on an invalid
calendar date, is modelled by an Except value; an uncaught Python
exception is modelled by the error case propagating out of the
per-source builder.
-/

set_option maxRecDepth 8000

instance {ε α : Type _} [DecidableEq ε] [DecidableEq α] : DecidableEq (Except ε α) :=
  fun a b =>
  match a, b with
  | .error e1, .error e2 =>
    if h : e1 = e2 then .isTrue (by rw [h])
    else .isFalse (fun hc => h (Except.error.inj hc))
  | .error _, .ok _ => .isFalse (fun hc => Except.noConfusion hc)
  | .ok _, .error _ => .isFalse (fun hc => Except.noConfusion hc)
  | .ok a1, .ok a2 =>
    if h : a1 = a2 then .isTrue (by rw [h])
    else .isFalse (fun hc => h (Except.ok.inj hc))

/-! Character classes of the re module (ASCII fragment, which covers the
keyword tables and patterns of the source). -/

def isWordChar (c : Char) : Bool := c.isAlphanum || c == '_'

def isSpaceChar (c : Char) : Bool :=
  c == ' ' || c == '\t' || c == '\n' || c == '\r' || c == '\x0b' || c == '\x0c'

def digitVal (c : Char) : Nat := c.toNat - '0'.toNat

def lowerData (s : String) : List Char := s.data.map Char.toLower

def lowerStr (s : String) : String := ⟨s.data.map Char.toLower⟩

def stripL (l : List Char) : List Char :=
  ((l.dropWhile isSpaceChar).reverse.dropWhile isSpaceChar).reverse

def stripStr (s : String) : String := ⟨stripL s.data⟩

def collapseWs : List Char → List Char
  | [] => []
  | [c] => [if isSpaceChar c then ' ' else c]
  | c :: d :: rest =>
    if isSpaceChar c && isSpaceChar d then collapseWs (d :: rest)
    else (if isSpaceChar c then ' ' else c) :: collapseWs (d :: rest)

/-- Model of clean_ws: strip the ends, then replace every whitespace run
by a single space (re.sub of one or more whitespace with one space). -/
def clean_ws (s : String) : String := ⟨collapseWs (stripL s.data)⟩

/-! Indexed access into the text being scanned. -/

def charIs (t : List Char) (i : Nat) (c : Char) : Bool :=
  match t.get? i with
  | some d => d == c
  | none => false

def isDigitAt (t : List Char) (i : Nat) : Bool :=
  match t.get? i with
  | some d => d.isDigit
  | none => false

def digitAt (t : List Char) (i : Nat) : Nat :=
  match t.get? i with
  | some d => digitVal d
  | none => 0

def wordAt (t : List Char) (i : Nat) : Bool :=
  match t.get? i with
  | some d => isWordChar d
  | none => false

/-- Word boundary of the re module at position p of the text (positions
outside the text count as non-word). -/
def boundary (t : List Char) : Nat → Bool
  | 0 => wordAt t 0
  | q + 1 => wordAt t q != wordAt t (q + 1)

/-- Literal match of a pattern fragment at position i. -/
def litAt (t : List Char) (i : Nat) (pat : List Char) : Bool :=
  match pat with
  | [] => true
  | c :: cs => charIs t i c && litAt t (i + 1) cs

def num2At (t : List Char) (i : Nat) : Nat := 10 * digitAt t i + digitAt t (i + 1)

/-- Substring containment, the Python in operator on strings. -/
def containsSub (hay needle : List Char) : Bool :=
  (List.range (hay.length + 1)).any (fun i => litAt hay i needle)

/-! Calendar model: Python datetime validity and ordering. -/

def isLeapYear (y : Nat) : Bool := y % 4 == 0 && (y % 100 != 0 || y % 400 == 0)

def daysInMonth (y m : Nat) : Nat :=
  if m == 2 then (if isLeapYear y then 29 else 28)
  else if m == 4 || m == 6 || m == 9 || m == 11 then 30
  else 31

structure Ymd where
  year : Nat
  month : Nat
  day : Nat
deriving DecidableEq, Repr

def validYmd (y m d : Nat) : Prop :=
  1 ≤ y ∧ y ≤ 9999 ∧ 1 ≤ m ∧ m ≤ 12 ∧ 1 ≤ d ∧ d ≤ daysInMonth y m

instance (y m d : Nat) : Decidable (validYmd y m d) := by
  unfold validYmd; infer_instance

/-- Model of the Python constructor datetime(y, m, d): it raises
ValueError on an out-of-range month or day, modelled by the error case. -/
def mkDatetime (y m d : Nat) : Except String Ymd :=
  if validYmd y m d then .ok ⟨y, m, d⟩ else .error "ValueError: invalid date"

/-- Comparison of midnight datetimes, which for valid dates is the
lexicographic order on (year, month, day). -/
def ymdLe (a b : Ymd) : Prop :=
  a.year < b.year ∨
    (a.year = b.year ∧ (a.month < b.month ∨ (a.month = b.month ∧ a.day ≤ b.day)))

instance (a b : Ymd) : Decidable (ymdLe a b) := by
  unfold ymdLe; infer_instance

/-- within_window from the source: start and stop bounds are inclusive. -/
def within_window (dt start stop : Ymd) : Bool :=
  decide (ymdLe start dt) && decide (ymdLe dt stop)

/-- Calendar successor of a day, the effect of timedelta(days=1). -/
def nextDay (d : Ymd) : Ymd :=
  if d.day < daysInMonth d.year d.month then ⟨d.year, d.month, d.day + 1⟩
  else if d.month < 12 then ⟨d.year, d.month + 1, 1⟩
  else ⟨d.year + 1, 1, 1⟩

/-- Model of adding timedelta(days=n) to a midnight datetime. -/
def addDays (d : Ymd) : Nat → Ymd
  | 0 => d
  | n + 1 => nextDay (addDays d n)

def pad2 (n : Nat) : String := if n < 10 then "0" ++ toString n else toString n

/-- Model of strftime with the year-month-day format used by the source
(years produced by the recognizer are always four digits). -/
def fmtDate (d : Ymd) : String :=
  toString d.year ++ "-" ++ pad2 d.month ++ "-" ++ pad2 d.day

/-! Scanner for DATE_ISO: a word boundary, then 20 and two digits, a
dash, two digits, a dash, two digits, then a word boundary. -/

def matchIsoAt (t : List Char) (i : Nat) : Option (Nat × Nat × Nat) :=
  if boundary t i && charIs t i '2' && charIs t (i + 1) '0'
      && isDigitAt t (i + 2) && isDigitAt t (i + 3) && charIs t (i + 4) '-'
      && isDigitAt t (i + 5) && isDigitAt t (i + 6) && charIs t (i + 7) '-'
      && isDigitAt t (i + 8) && isDigitAt t (i + 9) && boundary t (i + 10) then
    some (2000 + num2At t (i + 2), num2At t (i + 5), num2At t (i + 8))
  else none

def searchIso (t : List Char) : Option (Nat × Nat × Nat) :=
  (List.range (t.length + 1)).findSome? (matchIsoAt t)

/-! Scanner for DATE_MDY_SLASH: a word boundary, one or two digits
(greedy), a slash, one or two digits (greedy), a slash, 20 and two
digits, then a word boundary.  Returns (month, day, year) in the group
order of the pattern. -/

def slashYear (t : List Char) (k : Nat) (mo d : Nat) : Option (Nat × Nat × Nat) :=
  if charIs t k '/' && charIs t (k + 1) '2' && charIs t (k + 2) '0'
      && isDigitAt t (k + 3) && isDigitAt t (k + 4) && boundary t (k + 5) then
    some (mo, d, 2000 + num2At t (k + 3))
  else none

def slashDay (t : List Char) (j : Nat) (mo : Nat) : Option (Nat × Nat × Nat) :=
  if charIs t j '/' then
    (if isDigitAt t (j + 1) && isDigitAt t (j + 2) then
       slashYear t (j + 3) mo (num2At t (j + 1))
     else none)
    <|>
    (if isDigitAt t (j + 1) then slashYear t (j + 2) mo (digitAt t (j + 1))
     else none)
  else none

def matchSlashAt (t : List Char) (i : Nat) : Option (Nat × Nat × Nat) :=
  if boundary t i then
    (if isDigitAt t i && isDigitAt t (i + 1) then slashDay t (i + 2) (num2At t i)
     else none)
    <|>
    (if isDigitAt t i then slashDay t (i + 1) (digitAt t i) else none)
  else none

def searchSlash (t : List Char) : Option (Nat × Nat × Nat) :=
  (List.range (t.length + 1)).findSome? (matchSlashAt t)

/-! Scanner for DATE_MON_NAME (case-insensitive: the text is lowered
before scanning).  Month-name alternatives in the order of the pattern,
each with its greedy optional tail; then one or more spaces, a one- or
two-digit day (greedy), an optional ordinal suffix, an optional comma,
one or more spaces, 20 and two digits, then a word boundary.  Returns
(lowered month text, day, year). -/

def monAlternatives : List (String × String) :=
  [("jan", "uary"), ("feb", "ruary"), ("mar", "ch"), ("apr", "il"),
   ("may", ""), ("jun", "e"), ("jul", "y"), ("aug", "ust"),
   ("sep", "tember"), ("sept", ""), ("oct", "ober"), ("nov", "ember"),
   ("dec", "ember")]

def spacesCount (t : List Char) (p : Nat) : Nat :=
  ((t.drop p).takeWhile isSpaceChar).length

def monYear (t : List Char) (k : Nat) (mon : String) (day : Nat) :
    Option (String × Nat × Nat) :=
  let n := spacesCount t k
  if n == 0 then none
  else
    let k2 := k + n
    if charIs t k2 '2' && charIs t (k2 + 1) '0' && isDigitAt t (k2 + 2)
        && isDigitAt t (k2 + 3) && boundary t (k2 + 4) then
      some (mon, day, 2000 + num2At t (k2 + 2))
    else none

def monComma (t : List Char) (k : Nat) (mon : String) (day : Nat) :
    Option (String × Nat × Nat) :=
  (if charIs t k ',' then monYear t (k + 1) mon day else none)
  <|> monYear t k mon day

def monOrdinal (t : List Char) (k : Nat) (mon : String) (day : Nat) :
    Option (String × Nat × Nat) :=
  (if litAt t k "st".data then monComma t (k + 2) mon day else none)
  <|> (if litAt t k "nd".data then monComma t (k + 2) mon day else none)
  <|> (if litAt t k "rd".data then monComma t (k + 2) mon day else none)
  <|> (if litAt t k "th".data then monComma t (k + 2) mon day else none)
  <|> monComma t k mon day

def monDay (t : List Char) (j : Nat) (mon : String) : Option (String × Nat × Nat) :=
  let n := spacesCount t j
  if n == 0 then none
  else
    let j2 := j + n
    (if isDigitAt t j2 && isDigitAt t (j2 + 1) then
       monOrdinal t (j2 + 2) mon (num2At t j2)
     else none)
    <|>
    (if isDigitAt t j2 then monOrdinal t (j2 + 1) mon (digitAt t j2) else none)

def monTryName (t : List Char) (i : Nat) (base tail : String) :
    Option (String × Nat × Nat) :=
  (if tail.data ≠ [] && litAt t i (base.data ++ tail.data) then
     monDay t (i + base.length + tail.length) (base ++ tail)
   else none)
  <|> (if litAt t i base.data then monDay t (i + base.length) base else none)

def monAltScan (t : List Char) (i : Nat) :
    List (String × String) → Option (String × Nat × Nat)
  | [] => none
  | (base, tail) :: rest => monTryName t i base tail <|> monAltScan t i rest

def matchMonAt (t : List Char) (i : Nat) : Option (String × Nat × Nat) :=
  if boundary t i then monAltScan t i monAlternatives else none

def searchMon (t : List Char) : Option (String × Nat × Nat) :=
  let lt := t.map Char.toLower
  (List.range (lt.length + 1)).findSome? (matchMonAt lt)

/-! Month-name table of the source, with the irregular sept entry. -/

def MONTHS : List (String × Nat) :=
  [("jan", 1), ("january", 1), ("feb", 2), ("february", 2),
   ("mar", 3), ("march", 3), ("apr", 4), ("april", 4), ("may", 5),
   ("jun", 6), ("june", 6), ("jul", 7), ("july", 7),
   ("aug", 8), ("august", 8), ("sep", 9), ("sept", 9), ("september", 9),
   ("oct", 10), ("october", 10), ("nov", 11), ("november", 11),
   ("dec", 12), ("december", 12)]

def monthsLookup (s : String) : Option Nat :=
  (MONTHS.find? (fun p => p.1 == s)).map (fun p => p.2)

def strTake (s : String) (n : Nat) : String := ⟨s.data.take n⟩

/-- Month-name branch of parse_first_date: key resolution through the
MONTHS table, returning none (not an error) on an unresolvable key. -/
def monthBranch (monRaw : String) (day year : Nat) : Except String (Option Ymd) :=
  let monKey := if (monthsLookup monRaw).isSome then monRaw else strTake monRaw 3
  match monthsLookup monKey with
  | none => .ok none
  | some mon => (mkDatetime year mon day).map some

/-- parse_first_date from the source: the three patterns are tried in
the fixed order ISO, slash, month name, with first match winning; a
matched date reaching datetime construction can raise (the error case). -/
def parse_first_date (s : String) : Except String (Option Ymd) :=
  let t := s.data
  match searchIso t with
  | some (y, mo, d) => (mkDatetime y mo d).map some
  | none =>
    match searchSlash t with
    | some (mo, d, y) => (mkDatetime y mo d).map some
    | none =>
      match searchMon t with
      | some (monRaw, day, year) => monthBranch monRaw day year
      | none => .ok none

/-! Scanner for TIME_RE: a word boundary, one or two digits (greedy),
optional colon plus two digits, greedy whitespace, optional meridiem
(am before pm), then a word boundary. -/

inductive Meridiem where
  | am
  | pm
deriving DecidableEq, Repr

def timeMer (t : List Char) (q : Nat) (hh : Nat) (mmOpt : Option Nat) :
    Option (Nat × Option Nat × Option Meridiem) :=
  (if litAt t q "am".data && boundary t (q + 2) then some (hh, mmOpt, some .am)
   else none)
  <|> (if litAt t q "pm".data && boundary t (q + 2) then some (hh, mmOpt, some .pm)
       else none)
  <|> (if boundary t q then some (hh, mmOpt, none) else none)

def timeSpaces (t : List Char) (hh : Nat) (mmOpt : Option Nat) (p : Nat) :
    Nat → Option (Nat × Option Nat × Option Meridiem)
  | 0 => timeMer t p hh mmOpt
  | k + 1 => timeMer t (p + (k + 1)) hh mmOpt <|> timeSpaces t hh mmOpt p k

def timeFinish (t : List Char) (hh : Nat) (mmOpt : Option Nat) (p : Nat) :
    Option (Nat × Option Nat × Option Meridiem) :=
  timeSpaces t hh mmOpt p (spacesCount t p)

def timeMinutes (t : List Char) (hh : Nat) (j : Nat) :
    Option (Nat × Option Nat × Option Meridiem) :=
  (if charIs t j ':' && isDigitAt t (j + 1) && isDigitAt t (j + 2) then
     timeFinish t hh (some (num2At t (j + 1))) (j + 3)
   else none)
  <|> timeFinish t hh none j

def matchTimeAt (t : List Char) (i : Nat) :
    Option (Nat × Option Nat × Option Meridiem) :=
  if boundary t i then
    (if isDigitAt t i && isDigitAt t (i + 1) then timeMinutes t (num2At t i) (i + 2)
     else none)
    <|> (if isDigitAt t i then timeMinutes t (digitAt t i) (i + 1) else none)
  else none

def searchTime (t : List Char) : Option (Nat × Option Nat × Option Meridiem) :=
  (List.range (t.length + 1)).findSome? (matchTimeAt t)

def fmtTime (hh mm : Nat) : String := pad2 hh ++ ":" ++ pad2 mm

/-- parse_first_time from the source: lower the text, take the first
time-like match, reject a meridiem-free hour above 23, apply the pm/am
conversions, reject an hour above 23 or minute above 59, else format. -/
def parse_first_time (s : String) : String :=
  match searchTime (lowerData s) with
  | none => ""
  | some (hh, mmOpt, ap) =>
    let mm := mmOpt.getD 0
    if ap = none ∧ 23 < hh then ""
    else
      let h1 := if ap = some .pm ∧ hh ≠ 12 then hh + 12 else hh
      let h2 := if ap = some .am ∧ h1 = 12 then 0 else h1
      if 23 < h2 ∨ 59 < mm then "" else fmtTime h2 mm

/-! Target metro table and modality keywords, in source order. -/

def METROS : List (String × List String) :=
  [("Dallas", ["dallas", "dfw", "fort worth", "north texas", "plano", "frisco",
               "irving", "arlington"]),
   ("Austin", ["austin", "atx", "round rock", "cedar park"]),
   ("Houston", ["houston", "the woodlands", "sugar land", "katy"]),
   ("San Antonio", ["san antonio", "satx"])]

/-- guess_metro from the source: lower the text, return the first metro
in table order one of whose aliases occurs in the text. -/
def guess_metro (text : String) : Option String :=
  let t := lowerData text
  (METROS.find? (fun p => p.2.any (fun k => containsSub t k.data))).map (fun p => p.1)

def is_virtual (text : String) : Bool :=
  let t := lowerData text
  ["virtual", "online", "zoom", "webinar", "teams", "remote"].any
    (fun k => containsSub t k.data)

/-! Parsed-markup model.  A node is a text run or an element with a tag,
a class list, an optional href attribute and children.  Structural
identity of the Python objects is modelled by the preorder index of an
element in its document. -/

mutual
inductive Node where
  | text (s : String)
  | elem (tag : String) (classes : List String) (href : Option String)
      (children : NodeList)
inductive NodeList where
  | nil
  | cons (n : Node) (ns : NodeList)
end

def nlist : List Node → NodeList
  | [] => .nil
  | n :: ns => .cons n (nlist ns)

def nodeTag : Node → String
  | .text _ => ""
  | .elem t _ _ _ => t

def nodeClasses : Node → List String
  | .text _ => []
  | .elem _ c _ _ => c

def anchorHref : Node → String
  | .elem _ _ (some h) _ => h
  | _ => ""

mutual
def getTexts : Node → List String
  | .text s => [s]
  | .elem _ _ _ ch => getTextsL ch
def getTextsL : NodeList → List String
  | .nil => []
  | .cons n ns => getTexts n ++ getTextsL ns
end

/-- Model of get_text with a single-space separator. -/
def getText (n : Node) : String := String.intercalate " " (getTexts n)

mutual
def elemsNode : Node → Nat → List (Nat × Node) × Nat
  | .text _, i => ([], i)
  | .elem tag cls href ch, i =>
    let r := elemsList ch (i + 1)
    ((i, .elem tag cls href ch) :: r.1, r.2)
def elemsList : NodeList → Nat → List (Nat × Node) × Nat
  | .nil, i => ([], i)
  | .cons n ns, i =>
    let r1 := elemsNode n i
    let r2 := elemsList ns r1.2
    (r1.1 ++ r2.1, r2.2)
end

/-- Every element of the document in document (preorder) order, tagged
with its preorder index, the model of Python object identity. -/
def allElems (doc : NodeList) : List (Nat × Node) := (elemsList doc 0).1

/-- Matching of the simple selectors used by the source: a bare tag name
or a single class name introduced by a dot. -/
def selMatches (sel : String) (n : Node) : Bool :=
  match sel.data with
  | '.' :: cls => (nodeClasses n).contains (⟨cls⟩ : String)
  | _ => nodeTag n == sel

def selectDoc (doc : NodeList) (sel : String) : List (Nat × Node) :=
  (allElems doc).filter (fun p => selMatches sel p.2)

def SELECTORS : List String :=
  ["article", "li", "tr", ".event", ".events", ".event-item", ".eventCard",
   ".tribe-events-calendar-list__event", ".tribe-events-calendar-list__event-row",
   ".views-row", ".ai1ec-event", ".calendar-event", ".post", ".type-tribe_events"]

/-- Combined pass over the precise selector list, in selector order with
document order within a selector. -/
def selPass (doc : NodeList) : List (Nat × Node) :=
  (SELECTORS.map (selectDoc doc)).flatten

/-- Broad fallback scan over likely containers. -/
def fallbackScan (doc : NodeList) : List (Nat × Node) :=
  (allElems doc).filter
    (fun p => (["article", "section", "div", "li", "tr"] : List String).contains (nodeTag p.2))

def MAX_CANDIDATES_PER_SOURCE : Nat := 120

/-- First-occurrence deduplication by object identity (preorder index). -/
def dedupIdx (seen : List Nat) : List (Nat × Node) → List (Nat × Node)
  | [] => []
  | p :: rest =>
    if p.1 ∈ seen then dedupIdx seen rest
    else p :: dedupIdx (p.1 :: seen) rest

/-- extract_candidate_blocks from the source: the selector pass, the
broad fallback only when that pass is empty, identity deduplication and
the cap of 120. -/
def extract_candidate_blocks (doc : NodeList) : List (Nat × Node) :=
  let blocks := selPass doc
  let blocks2 := if blocks.isEmpty then fallbackScan doc else blocks
  (dedupIdx [] blocks2).take MAX_CANDIDATES_PER_SOURCE

mutual
def findTagN : Node → String → Option Node
  | .text _, _ => none
  | .elem t c h ch, tag =>
    if t == tag then some (.elem t c h ch) else findTagL ch tag
def findTagL : NodeList → String → Option Node
  | .nil, _ => none
  | .cons n ns, tag => findTagN n tag <|> findTagL ns tag
end

/-- Model of block.find(tag): first matching descendant in document
order, the block itself excluded. -/
def findDesc : Node → String → Option Node
  | .text _, _ => none
  | .elem _ _ _ ch, tag => findTagL ch tag

mutual
def anchorsN : Node → List Node
  | .text _ => []
  | .elem t c h ch =>
    (if t == "a" && h.isSome then [Node.elem t c h ch] else []) ++ anchorsL ch
def anchorsL : NodeList → List Node
  | .nil => []
  | .cons n ns => anchorsN n ++ anchorsL ns
end

/-- Model of block.find_all of anchors carrying an href attribute. -/
def blockAnchors : Node → List Node
  | .text _ => []
  | .elem _ _ _ ch => anchorsL ch

def wordsAux : List Char → List Char → List String
  | cur, [] => if cur.isEmpty then [] else [⟨cur.reverse⟩]
  | cur, c :: rest =>
    if isSpaceChar c then
      (if cur.isEmpty then [] else [⟨cur.reverse⟩]) ++ wordsAux [] rest
    else wordsAux (c :: cur) rest

/-- Python str.split with no argument: whitespace-delimited words. -/
def splitWords (s : String) : List String := wordsAux [] s.data

def firstTenWords (b : Node) : String :=
  String.intercalate " " ((splitWords (clean_ws (getText b))).take 10)

def headingSearch (b : Node) : List String → Option String
  | [] => none
  | tag :: rest =>
    match findDesc b tag with
    | some h =>
      let t := clean_ws (getText h)
      if 4 ≤ t.length then some t else headingSearch b rest
    | none => headingSearch b rest

/-- find_best_title from the source: first adequate heading, else the
first anchor with adequate text, else the first ten words of the block. -/
def find_best_title (b : Node) : String :=
  match headingSearch b ["h1", "h2", "h3", "h4"] with
  | some t => t
  | none =>
    match findDesc b "a" with
    | some a =>
      let t := clean_ws (getText a)
      if 4 ≤ t.length then t else firstTenWords b
    | none => firstTenWords b

/-- Modelled from the spec: resolution of a relative link against the
source URL is delegated to the stdlib function urljoin, which is outside
this repository; no verified claim depends on its path arithmetic, so it
is modelled as concatenation of the base and the reference. -/
def urljoin (base ref : String) : String := base ++ ref

def normalize_url (href base : String) : String :=
  let h := stripStr href
  if h = "" then ""
  else if litAt h.data 0 "http://".data || litAt h.data 0 "https://".data then h
  else urljoin base h

def REG_KEYWORDS : List String :=
  ["register", "registration", "rsvp", "details", "learn more", "tickets"]

/-- find_best_link from the source: the first anchor whose visible text
holds a registration keyword, else the first anchor, resolved against
the source URL; no anchors yield the empty string. -/
def find_best_link (b : Node) (source_url : String) : String :=
  match blockAnchors b with
  | [] => ""
  | a0 :: rest =>
    let preferred := (a0 :: rest).find? (fun a =>
      REG_KEYWORDS.any (fun k => containsSub (lowerData (clean_ws (getText a))) k.data))
    let ph := match preferred with
      | some a => anchorHref a
      | none => ""
    let href := if ph = "" then anchorHref a0 else ph
    normalize_url href source_url

/-! The Event record of the source. -/

structure Event where
  org : String
  group : String
  city : String
  event_title : String
  start_date : String
  start_time : String
  end_date : String
  end_time : String
  venue : String
  registration_url : String
  source_url : String
deriving DecidableEq, Repr

inductive BlockResult where
  | kept (ev : Event)
  | dropped (reason : String)
deriving DecidableEq, Repr

/-- Metro and virtual policy stage of the per-block loop, followed by
time recognition and Event construction. -/
def metroStage (org group source_url : String) (b : Node) (txt : String)
    (dt : Ymd) (title : String) : BlockResult :=
  let reg_url := find_best_link b source_url
  let city := match guess_metro txt with
    | some c => c
    | none =>
      match guess_metro group with
      | some c => c
      | none => ""
  if is_virtual txt = true ∧ city = "" then .dropped "virtual_without_metro"
  else if city ∉ METROS.map Prod.fst then .dropped "not_target_metro"
  else
    .kept { org := org, group := group, city := city, event_title := title,
            start_date := fmtDate dt, start_time := parse_first_time txt,
            end_date := fmtDate dt, end_time := "", venue := "",
            registration_url := reg_url, source_url := source_url }

/-- Title stage of the per-block loop. -/
def titleStage (org group source_url : String) (b : Node) (txt : String)
    (dt : Ymd) : BlockResult :=
  let title := find_best_title b
  if title = "" ∨ title.length < 4 then .dropped "no_title"
  else metroStage org group source_url b txt dt title

/-- Window stage of the per-block loop. -/
def windowStage (org group source_url : String) (b : Node) (txt : String)
    (dt : Ymd) (start stop : Ymd) : BlockResult :=
  if within_window dt start stop = false then .dropped "out_of_window"
  else titleStage org group source_url b txt dt

/-- One iteration of the candidate loop of build_events_from_html.  The
boolean records whether the block was counted as dated; the error case
is an uncaught ValueError escaping from datetime construction. -/
def processBlock (org group source_url : String) (today : Ymd) (b : Node) :
    Except String (Bool × BlockResult) :=
  let txt := clean_ws (getText b)
  if txt.length < 30 then .ok (false, .dropped "too_short")
  else
    match parse_first_date txt with
    | .error e => .error e
    | .ok none => .ok (false, .dropped "no_date")
    | .ok (some dt) =>
      .ok (true, windowStage org group source_url b txt dt today (addDays today 90))

def bumpDrop (f : String → Nat) (r : String) : String → Nat :=
  fun s => if s = r then f s + 1 else f s

structure SrcAcc where
  events : List Event
  dated : Nat
  drops : String → Nat

def stepAcc (acc : SrcAcc) (res : Bool × BlockResult) : SrcAcc :=
  let dated2 := if res.1 then acc.dated + 1 else acc.dated
  match res.2 with
  | .kept ev => ⟨acc.events ++ [ev], dated2, acc.drops⟩
  | .dropped r => ⟨acc.events, dated2, bumpDrop acc.drops r⟩

def buildLoop (org group source_url : String) (today : Ymd) :
    List Node → SrcAcc → Except String SrcAcc
  | [], acc => .ok acc
  | b :: bs, acc =>
    match processBlock org group source_url today b with
    | .error e => .error e
    | .ok res => buildLoop org group source_url today bs (stepAcc acc res)

structure PerSourceLog where
  candidates_total : Nat
  dated_blocks : Nat
  events_kept : Nat
  drops : String → Nat

/-- build_events_from_html from the source, with the current local
midnight passed explicitly.  The error case models the uncaught
exception aborting the whole per-source loop. -/
def build_events_from_html (org group source_url : String) (today : Ymd)
    (doc : NodeList) : Except String (List Event × PerSourceLog) :=
  let candidates := (extract_candidate_blocks doc).map Prod.snd
  match buildLoop org group source_url today candidates ⟨[], 0, fun _ => 0⟩ with
  | .error e => .error e
  | .ok acc =>
    .ok (acc.events, ⟨candidates.length, acc.dated, acc.events.length, acc.drops⟩)

/-- Kept-events projection of the builder. -/
def buildEvents (org group source_url : String) (today : Ymd) (doc : NodeList) :
    Except String (List Event) :=
  (build_events_from_html org group source_url today doc).map Prod.fst

/-! Collection post-processing: deduplication and sorting. -/

def event_key (ev : Event) : String × String × String :=
  (lowerStr (stripStr ev.event_title), ev.start_date, lowerStr (stripStr ev.registration_url))

def dedupeGo (seen : List (String × String × String)) : List Event → List Event
  | [] => []
  | ev :: rest =>
    if event_key ev ∈ seen then dedupeGo seen rest
    else ev :: dedupeGo (event_key ev :: seen) rest

/-- dedupe from the source: first occurrence of each key wins. -/
def dedupe (events : List Event) : List Event := dedupeGo [] events

/-! Order on sort keys: Python string comparison is the lexicographic
order on code points, and tuples compare lexicographically. -/

def strLtB : List Char → List Char → Bool
  | [], [] => false
  | [], _ :: _ => true
  | _ :: _, [] => false
  | c :: cs, d :: ds =>
    if c.toNat < d.toNat then true
    else if d.toNat < c.toNat then false
    else strLtB cs ds

def sortKey (ev : Event) : List Char × List Char × List Char :=
  (ev.start_date.data,
   (if ev.start_time = "" then "00:00" else ev.start_time).data,
   (lowerStr ev.event_title).data)

/-- Lexicographic tuple order on the sort key of the source. -/
def sortLe (x y : Event) : Prop :=
  strLtB (sortKey x).1 (sortKey y).1 = true ∨
    ((sortKey x).1 = (sortKey y).1 ∧
      (strLtB (sortKey x).2.1 (sortKey y).2.1 = true ∨
        ((sortKey x).2.1 = (sortKey y).2.1 ∧
          strLtB (sortKey y).2.2 (sortKey x).2.2 = false)))

instance : DecidableRel sortLe := fun x y => by unfold sortLe; infer_instance

/-- sort_events from the source: Python sorted is a stable sort by the
key tuple; a stable insertion sort over the key order gives the same
result list. -/
def sort_events (events : List Event) : List Event := List.insertionSort sortLe events

/-! Concrete documents and records used to settle the claims. -/

/-- Article of the end-to-end scenario of the spec: one article block
with the promotional sentence and one registration hyperlink. -/
def c2Article : Node :=
  .elem "article" [] none (nlist
    [.text "Join us Feb 19, 2026 at 6pm in Austin, TX — Register",
     .elem "a" [] (some "https://example.com/register") (nlist [.text "Register"])])

def c2Doc : NodeList := nlist [c2Article]

/-- Event actually produced from the scenario article by the code. -/
def c2Event : Event :=
  { org := "Org", group := "Grp", city := "Austin", event_title := "Register",
    start_date := "2026-02-19", start_time := "19:00", end_date := "2026-02-19",
    end_time := "", venue := "", registration_url := "https://example.com/register",
    source_url := "https://src.example.org/page" }

/-- Block whose text matches the ISO pattern with an invalid calendar
day. -/
def c1BadArticle : Node :=
  .elem "article" [] none (nlist
    [.text "Community cybersecurity meetup on 2026-02-30 in Dallas with details"])

/-- Well-formed block that follows the malformed one in the same
document. -/
def c1GoodArticle : Node :=
  .elem "article" [] none (nlist
    [.text "Community cybersecurity meetup on Feb 10, 2026 in Dallas with details",
     .elem "a" [] (some "https://example.com/d") (nlist [.text "Details here"])])

def c1Doc : NodeList := nlist [c1BadArticle, c1GoodArticle]

def c1GoodDoc : NodeList := nlist [c1GoodArticle]

/-- Event the well-formed block yields when processed on its own. -/
def c1GoodEvent : Event :=
  { org := "Org", group := "Grp", city := "Dallas", event_title := "Details here",
    start_date := "2026-02-10", start_time := "10:00", end_date := "2026-02-10",
    end_time := "", venue := "", registration_url := "https://example.com/d",
    source_url := "https://s.example/x" }

/-- List item nested in the block below. -/
def c9Li : Node := .elem "li" [] none (nlist [.text "agenda item"])

/-- Block matched by two selectors (bare tag and class), to exercise
identity deduplication. -/
def c9Art : Node :=
  .elem "article" ["event"] none (nlist
    [.text "Monthly chapter meeting on Mar 3, 2026 in Houston for members", c9Li])

def c9Doc : NodeList := nlist [c9Art]

/-- Short block (under thirty characters) dropped as too short. -/
def c10ShortArticle : Node :=
  .elem "article" [] none (nlist [.text "tiny"])

def c10Doc : NodeList := nlist [c1GoodArticle, c10ShortArticle]

/-- Diagnostics record produced for c10Doc. -/
def c10Log : PerSourceLog := ⟨2, 1, 1, bumpDrop (fun _ => 0) "too_short"⟩

/-- Sum of the drop counters over the six reasons the builder uses. -/
def sumDrops (f : String → Nat) : Nat :=
  f "too_short" + f "no_date" + f "out_of_window" + f "no_title" +
    f "virtual_without_metro" + f "not_target_metro"

/-- Sum of the drop counters applied after date recognition. -/
def lateDrops (f : String → Nat) : Nat :=
  f "out_of_window" + f "no_title" + f "virtual_without_metro" + f "not_target_metro"

/-- Two events sharing the dedup key while differing in organization. -/
def w7a : Event :=
  { org := "ISSA", group := "G1", city := "Dallas", event_title := " Lunch Talk ",
    start_date := "2026-03-05", start_time := "11:30", end_date := "2026-03-05",
    end_time := "", venue := "", registration_url := "https://X.example/R",
    source_url := "https://a.example" }

def w7b : Event :=
  { org := "ISACA", group := "G2", city := "Dallas", event_title := "lunch talk",
    start_date := "2026-03-05", start_time := "12:00", end_date := "2026-03-05",
    end_time := "", venue := "", registration_url := "https://x.example/r",
    source_url := "https://b.example" }

/-- Events of the sorting example of the spec. -/
def e8a : Event :=
  { org := "O", group := "G", city := "Austin", event_title := "Bravo",
    start_date := "2026-03-01", start_time := "", end_date := "2026-03-01",
    end_time := "", venue := "", registration_url := "", source_url := "" }

def e8b : Event :=
  { org := "O", group := "G", city := "Austin", event_title := "Alpha",
    start_date := "2026-03-01", start_time := "09:00", end_date := "2026-03-01",
    end_time := "", venue := "", registration_url := "", source_url := "" }

def e8c : Event :=
  { org := "O", group := "G", city := "Austin", event_title := "Charlie",
    start_date := "2026-02-15", start_time := "18:00", end_date := "2026-02-15",
    end_time := "", venue := "", registration_url := "", source_url := "" }

/-- Neutral block for stage-level witnesses. -/
def wBlock : Node := .elem "div" [] none (nlist [])

/-! Helper lemmas about the builder stages. -/

theorem windowStage_pass (org group src : String) (b : Node) (txt : String)
    (dt start stop : Ymd) (h : within_window dt start stop = true) :
    windowStage org group src b txt dt start stop = titleStage org group src b txt dt := by
  unfold windowStage
  rw [h]
  simp

theorem windowStage_out (org group src : String) (b : Node) (txt : String)
    (dt start stop : Ymd) (h : within_window dt start stop = false) :
    windowStage org group src b txt dt start stop = .dropped "out_of_window" := by
  unfold windowStage
  rw [h]
  rfl

theorem buildLoop_cons (org group src : String) (today : Ymd) (b : Node)
    (bs : List Node) (acc : SrcAcc) (res : Bool × BlockResult)
    (h : processBlock org group src today b = .ok res) :
    buildLoop org group src today (b :: bs) acc =
      buildLoop org group src today bs (stepAcc acc res) := by
  unfold buildLoop
  rw [h]
  cases bs <;> rfl

theorem build_single (org group src : String) (today : Ymd) (doc : NodeList) (b : Node)
    (hext : (extract_candidate_blocks doc).map Prod.snd = [b]) (ev : Event)
    (h : processBlock org group src today b = .ok (true, .kept ev)) :
    buildEvents org group src today doc = .ok [ev] := by
  simp only [buildEvents, build_events_from_html]
  rw [hext, buildLoop_cons _ _ _ _ _ _ _ _ h]
  rfl

theorem processBlock_dated (org group src : String) (today : Ymd) (b : Node) (dt : Ymd)
    (h1 : 30 ≤ (clean_ws (getText b)).length)
    (h2 : parse_first_date (clean_ws (getText b)) = .ok (some dt)) :
    processBlock org group src today b =
      .ok (true, windowStage org group src b (clean_ws (getText b)) dt today
        (addDays today 90)) := by
  simp only [processBlock]
  rw [if_neg (by omega), h2]

theorem ymd_not_le_nextDay (e : Ymd) : ¬ ymdLe (nextDay e) e := by
  unfold nextDay
  split_ifs <;> simp [ymdLe]

/-- C1: the spec says the recognizer returns not-found rather than
raising, so no malformed date text aborts later blocks or sources.  The
code disagrees: a text matching the ISO pattern with an invalid calendar
day (2026-02-30) makes datetime construction raise ValueError, and the
uncaught exception aborts the whole per-source build, although the
well-formed following block on its own yields an event. -/
theorem c1_malformed_date_aborts_run :
    parse_first_date
        "Community cybersecurity meetup on 2026-02-30 in Dallas with details" =
      .error "ValueError: invalid date"
    ∧ build_events_from_html "Org" "Grp" "https://s.example/x" ⟨2026, 2, 1⟩ c1Doc =
        .error "ValueError: invalid date"
    ∧ buildEvents "Org" "Grp" "https://s.example/x" ⟨2026, 2, 1⟩ c1GoodDoc =
        .ok [c1GoodEvent] :=
  ⟨by decide, rfl, by decide⟩

/-- C2: the spec expects the scenario article to yield one event with
start time 18:00 taken from the fragment 6pm.  The code instead returns
19:00: the first time-like match in the block text is the day number 19
of Feb 19, which has no meridiem and is not above 23, so it is accepted
as the hour.  The other expected fields do hold. -/
theorem c2_scenario_start_time_counterexample :
    buildEvents "Org" "Grp" "https://src.example.org/page" ⟨2026, 2, 1⟩ c2Doc =
      .ok [c2Event]
    ∧ c2Event.start_time = "19:00" ∧ c2Event.start_time ≠ "18:00"
    ∧ c2Event.city = "Austin" ∧ c2Event.start_date = "2026-02-19"
    ∧ c2Event.registration_url ≠ "" :=
  ⟨by decide, rfl, by decide, rfl, rfl, by decide⟩

/-- C2 (amended): whenever the run day places 2026-02-19 inside the
90-day window, the extraction pipeline on the scenario article produces
exactly one event with city Austin, start date 2026-02-19, a non-empty
registration link, and start time 19:00 (not 18:00: the day number of
the date is picked up as the hour by the first-match time scan). -/
theorem c2_scenario_pipeline (today : Ymd)
    (h : within_window ⟨2026, 2, 19⟩ today (addDays today 90) = true) :
    buildEvents "Org" "Grp" "https://src.example.org/page" today c2Doc = .ok [c2Event]
    ∧ c2Event.city = "Austin" ∧ c2Event.start_date = "2026-02-19"
    ∧ c2Event.start_time = "19:00" ∧ c2Event.registration_url ≠ "" := by
  refine ⟨?_, rfl, rfl, rfl, by decide⟩
  refine build_single _ _ _ _ c2Doc c2Article (by rfl) c2Event ?_
  have h0 : processBlock "Org" "Grp" "https://src.example.org/page" today c2Article =
      .ok (true, windowStage "Org" "Grp" "https://src.example.org/page" c2Article
        (clean_ws (getText c2Article)) ⟨2026, 2, 19⟩ today (addDays today 90)) := rfl
  rw [h0, windowStage_pass _ _ _ _ _ _ _ _ h]
  rfl

theorem c2_scenario_pipeline_witness :
    buildEvents "Org" "Grp" "https://src.example.org/page" ⟨2026, 2, 1⟩ c2Doc =
      .ok [c2Event] :=
  (c2_scenario_pipeline ⟨2026, 2, 1⟩ (by decide)).1

/-- C6: a dated block inside the inclusive window passes the filter and
goes on to the title stage; a dated block outside it is dropped as
out_of_window; a dated block always reaches the window stage; and the
day exactly 91 days ahead of any run day lies outside the window. -/
theorem c6_window_filter :
    (∀ org group src : String, ∀ b : Node, ∀ txt : String, ∀ dt today : Ymd,
      within_window dt today (addDays today 90) = true →
        windowStage org group src b txt dt today (addDays today 90) =
          titleStage org group src b txt dt)
    ∧ (∀ org group src : String, ∀ b : Node, ∀ txt : String, ∀ dt today : Ymd,
      within_window dt today (addDays today 90) = false →
        windowStage org group src b txt dt today (addDays today 90) =
          .dropped "out_of_window")
    ∧ (∀ org group src : String, ∀ today : Ymd, ∀ b : Node, ∀ dt : Ymd,
      30 ≤ (clean_ws (getText b)).length →
      parse_first_date (clean_ws (getText b)) = .ok (some dt) →
        processBlock org group src today b =
          .ok (true, windowStage org group src b (clean_ws (getText b)) dt today
            (addDays today 90)))
    ∧ (∀ today : Ymd, within_window (addDays today 91) today (addDays today 90) = false) := by
  refine ⟨?_, ?_, ?_, ?_⟩
  · intro org group src b txt dt today h
    exact windowStage_pass org group src b txt dt today (addDays today 90) h
  · intro org group src b txt dt today h
    exact windowStage_out org group src b txt dt today (addDays today 90) h
  · intro org group src today b dt h1 h2
    exact processBlock_dated org group src today b dt h1 h2
  · intro today
    show within_window (nextDay (addDays today 90)) today (addDays today 90) = false
    have h2 := ymd_not_le_nextDay (addDays today 90)
    unfold within_window
    simp [h2]

theorem c6_window_filter_witness :
    windowStage "O" "G" "S" wBlock "txt" ⟨2027, 3, 1⟩ ⟨2026, 10, 12⟩
        (addDays ⟨2026, 10, 12⟩ 90) = .dropped "out_of_window" :=
  c6_window_filter.2.1 "O" "G" "S" wBlock "txt" ⟨2027, 3, 1⟩ ⟨2026, 10, 12⟩ (by decide)

/-- C4: parse_first_date commits to the ISO branch whenever the ISO
pattern matches anywhere, to the slash branch when only it matches, and
to the month-name branch last, answering not-found when nothing matches;
in particular a text holding both an ISO and a month-name date yields
the ISO date whenever it is a valid calendar date. -/
theorem c4_date_priority :
    (∀ s : String, ∀ y mo d : Nat, searchIso s.data = some (y, mo, d) →
      parse_first_date s = (mkDatetime y mo d).map some)
    ∧ (∀ s : String, ∀ mo d y : Nat, searchIso s.data = none →
      searchSlash s.data = some (mo, d, y) →
      parse_first_date s = (mkDatetime y mo d).map some)
    ∧ (∀ s monRaw : String, ∀ day year : Nat, searchIso s.data = none →
      searchSlash s.data = none → searchMon s.data = some (monRaw, day, year) →
      parse_first_date s = monthBranch monRaw day year)
    ∧ (∀ s : String, searchIso s.data = none → searchSlash s.data = none →
      searchMon s.data = none → parse_first_date s = .ok none)
    ∧ (∀ s : String, ∀ y mo d : Nat, ∀ r : String × Nat × Nat,
      searchIso s.data = some (y, mo, d) → searchMon s.data = some r →
      validYmd y mo d → parse_first_date s = .ok (some ⟨y, mo, d⟩)) := by
  refine ⟨?_, ?_, ?_, ?_, ?_⟩
  · intro s y mo d h
    simp only [parse_first_date, h]
  · intro s mo d y h1 h2
    simp only [parse_first_date, h1, h2]
  · intro s monRaw day year h1 h2 h3
    simp only [parse_first_date, h1, h2, h3]
  · intro s h1 h2 h3
    simp only [parse_first_date, h1, h2, h3]
  · intro s y mo d r h1 h2 hv
    simp only [parse_first_date, h1]
    unfold mkDatetime
    rw [if_pos hv]
    rfl

theorem c4_date_priority_witness :
    parse_first_date "Gala on Mar 5, 2026 moved to 2026-03-07" = .ok (some ⟨2026, 3, 7⟩)
    ∧ searchMon "Gala on Mar 5, 2026 moved to 2026-03-07".data = some ("mar", 5, 2026) :=
  ⟨c4_date_priority.2.2.2.2 "Gala on Mar 5, 2026 moved to 2026-03-07" 2026 3 7
      ("mar", 5, 2026) (by decide) (by decide) (by decide),
   by decide⟩

/-- C5: the four sample times evaluate as the spec states, and in
general a meridiem-free hour above 23 is rejected, pm with hour not 12
adds twelve, am with hour 12 gives hour zero, and a resulting hour above
23 or minute above 59 is rejected. -/
theorem c5_time_policy :
    parse_first_time "6:30pm" = "18:30"
    ∧ parse_first_time "12am" = "00:00"
    ∧ parse_first_time "12pm" = "12:00"
    ∧ parse_first_time "25:00" = ""
    ∧ (∀ s : String, ∀ hh : Nat, ∀ mmOpt : Option Nat,
      searchTime (lowerData s) = some (hh, mmOpt, none) → 23 < hh →
        parse_first_time s = "")
    ∧ (∀ s : String, ∀ hh : Nat, ∀ mmOpt : Option Nat,
      searchTime (lowerData s) = some (hh, mmOpt, some .pm) → hh ≠ 12 →
        parse_first_time s =
          if 23 < hh + 12 ∨ 59 < mmOpt.getD 0 then "" else fmtTime (hh + 12) (mmOpt.getD 0))
    ∧ (∀ s : String, ∀ mmOpt : Option Nat,
      searchTime (lowerData s) = some (12, mmOpt, some .am) →
        parse_first_time s =
          if 59 < mmOpt.getD 0 then "" else fmtTime 0 (mmOpt.getD 0)) := by
  refine ⟨by decide, by decide, by decide, by decide, ?_, ?_, ?_⟩
  · intro s hh mmOpt h hgt
    simp [parse_first_time, h, hgt]
  · intro s hh mmOpt h hne
    simp [parse_first_time, h, hne]
  · intro s mmOpt h
    simp [parse_first_time, h]

theorem c5_time_policy_witness : parse_first_time "99" = "" :=
  c5_time_policy.2.2.2.2.1 "99" 99 none (by decide) (by decide)

/-! Case analysis of the builder stages. -/

theorem metroStage_kept (org group src : String) (b : Node) (txt : String)
    (dt : Ymd) (title : String) (ev : Event)
    (h : metroStage org group src b txt dt title = .kept ev) :
    ev.city ∈ METROS.map Prod.fst := by
  simp only [metroStage] at h
  split_ifs at h with h1 h2
  cases h
  simpa using h2

theorem titleStage_kept (org group src : String) (b : Node) (txt : String)
    (dt : Ymd) (ev : Event)
    (h : titleStage org group src b txt dt = .kept ev) :
    ev.city ∈ METROS.map Prod.fst := by
  simp only [titleStage] at h
  split_ifs at h with h1
  exact metroStage_kept _ _ _ _ _ _ _ _ h

theorem windowStage_kept (org group src : String) (b : Node) (txt : String)
    (dt start stop : Ymd) (ev : Event)
    (h : windowStage org group src b txt dt start stop = .kept ev) :
    ev.city ∈ METROS.map Prod.fst := by
  simp only [windowStage] at h
  split_ifs at h with h1
  exact titleStage_kept _ _ _ _ _ _ _ h

/-- C3: every kept event carries one of the four target metro names as
its city; a block classified virtual whose text and group label resolve
no metro is dropped as virtual_without_metro; and a block resolving no
metro at all never yields a kept event. -/
theorem c3_city_invariant :
    (∀ org group src : String, ∀ today : Ymd, ∀ b : Node, ∀ d : Bool, ∀ ev : Event,
      processBlock org group src today b = .ok (d, .kept ev) →
        ev.city ∈ METROS.map Prod.fst)
    ∧ (∀ org group src : String, ∀ b : Node, ∀ txt : String, ∀ dt : Ymd,
        ∀ title : String,
      is_virtual txt = true → guess_metro txt = none → guess_metro group = none →
        metroStage org group src b txt dt title = .dropped "virtual_without_metro")
    ∧ (∀ org group src : String, ∀ b : Node, ∀ txt : String, ∀ dt : Ymd,
        ∀ title : String, ∀ ev : Event,
      guess_metro txt = none → guess_metro group = none →
        metroStage org group src b txt dt title ≠ .kept ev) := by
  refine ⟨?_, ?_, ?_⟩
  · intro org group src today b d ev h
    simp only [processBlock] at h
    split_ifs at h with h1
    · simp at h
    · cases hp : parse_first_date (clean_ws (getText b)) with
      | error e => rw [hp] at h; simp at h
      | ok o =>
        rw [hp] at h
        cases o with
        | none => simp at h
        | some dt =>
          simp only [Except.ok.injEq, Prod.mk.injEq] at h
          exact windowStage_kept _ _ _ _ _ _ _ _ _ h.2
  · intro org group src b txt dt title hv hg1 hg2
    simp only [metroStage, hg1, hg2]
    rw [if_pos ⟨hv, trivial⟩]
  · intro org group src b txt dt title ev hg1 hg2
    simp only [metroStage, hg1, hg2]
    split_ifs with h1 h2
    · simp
    · exact absurd h2 (by decide)
    · simp

theorem c3_city_invariant_witness :
    metroStage "O" "Statewide Webcasts" "S" wBlock
        "zoom monthly community call open to everyone statewide" ⟨2026, 3, 1⟩ "Call" =
      .dropped "virtual_without_metro" :=
  c3_city_invariant.2.1 "O" "Statewide Webcasts" "S" wBlock
    "zoom monthly community call open to everyone statewide" ⟨2026, 3, 1⟩ "Call"
    (by decide) (by decide) (by decide)

theorem metroStage_result (org group src : String) (b : Node) (txt : String)
    (dt : Ymd) (title : String) :
    metroStage org group src b txt dt title = .dropped "virtual_without_metro"
    ∨ metroStage org group src b txt dt title = .dropped "not_target_metro"
    ∨ ∃ ev : Event, metroStage org group src b txt dt title = .kept ev := by
  simp only [metroStage]
  split_ifs with h1 h2
  · exact Or.inl rfl
  · exact Or.inr (Or.inr ⟨_, rfl⟩)
  · exact Or.inr (Or.inl rfl)

theorem titleStage_result (org group src : String) (b : Node) (txt : String)
    (dt : Ymd) :
    titleStage org group src b txt dt = .dropped "no_title"
    ∨ titleStage org group src b txt dt = .dropped "virtual_without_metro"
    ∨ titleStage org group src b txt dt = .dropped "not_target_metro"
    ∨ ∃ ev : Event, titleStage org group src b txt dt = .kept ev := by
  simp only [titleStage]
  split_ifs with h1
  · exact Or.inl rfl
  · exact Or.inr (metroStage_result org group src b txt dt (find_best_title b))

theorem windowStage_result (org group src : String) (b : Node) (txt : String)
    (dt start stop : Ymd) :
    windowStage org group src b txt dt start stop = .dropped "out_of_window"
    ∨ windowStage org group src b txt dt start stop = .dropped "no_title"
    ∨ windowStage org group src b txt dt start stop = .dropped "virtual_without_metro"
    ∨ windowStage org group src b txt dt start stop = .dropped "not_target_metro"
    ∨ ∃ ev : Event, windowStage org group src b txt dt start stop = .kept ev := by
  simp only [windowStage]
  split_ifs with h1
  · exact Or.inl rfl
  · exact Or.inr (titleStage_result org group src b txt dt)

theorem processBlock_ok_shape (org group src : String) (today : Ymd) (b : Node)
    (d : Bool) (r : BlockResult)
    (h : processBlock org group src today b = .ok (d, r)) :
    (d = false ∧ (r = .dropped "too_short" ∨ r = .dropped "no_date"))
    ∨ (d = true ∧ (r = .dropped "out_of_window" ∨ r = .dropped "no_title"
        ∨ r = .dropped "virtual_without_metro" ∨ r = .dropped "not_target_metro"
        ∨ ∃ ev : Event, r = .kept ev)) := by
  simp only [processBlock] at h
  split_ifs at h with h1
  · simp only [Except.ok.injEq, Prod.mk.injEq] at h
    exact Or.inl ⟨h.1.symm, Or.inl h.2.symm⟩
  · cases hp : parse_first_date (clean_ws (getText b)) with
    | error e => rw [hp] at h; simp at h
    | ok o =>
      rw [hp] at h
      cases o with
      | none =>
        simp only [Except.ok.injEq, Prod.mk.injEq] at h
        exact Or.inl ⟨h.1.symm, Or.inr h.2.symm⟩
      | some dt =>
        simp only [Except.ok.injEq, Prod.mk.injEq] at h
        refine Or.inr ⟨h.1.symm, ?_⟩
        have hw := windowStage_result org group src b (clean_ws (getText b)) dt today
          (addDays today 90)
        rw [h.2] at hw
        rcases hw with h5 | h5 | h5 | h5 | ⟨ev, h5⟩
    -- orientation: h.2 : windowStage ... = r, so rewriting turns occurrences
        · exact Or.inl h5
        · exact Or.inr (Or.inl h5)
        · exact Or.inr (Or.inr (Or.inl h5))
        · exact Or.inr (Or.inr (Or.inr (Or.inl h5)))
        · exact Or.inr (Or.inr (Or.inr (Or.inr ⟨ev, h5⟩)))

theorem sumDrops_bump (f : String → Nat) (r : String)
    (h : r = "too_short" ∨ r = "no_date" ∨ r = "out_of_window" ∨ r = "no_title"
      ∨ r = "virtual_without_metro" ∨ r = "not_target_metro") :
    sumDrops (bumpDrop f r) = sumDrops f + 1 := by
  rcases h with rfl | rfl | rfl | rfl | rfl | rfl <;>
    simp [sumDrops, bumpDrop] <;> omega

theorem lateDrops_bump_late (f : String → Nat) (r : String)
    (h : r = "out_of_window" ∨ r = "no_title" ∨ r = "virtual_without_metro"
      ∨ r = "not_target_metro") :
    lateDrops (bumpDrop f r) = lateDrops f + 1 := by
  rcases h with rfl | rfl | rfl | rfl <;> simp [lateDrops, bumpDrop] <;> omega

theorem lateDrops_bump_early (f : String → Nat) (r : String)
    (h : r = "too_short" ∨ r = "no_date") :
    lateDrops (bumpDrop f r) = lateDrops f := by
  rcases h with rfl | rfl <;> simp [lateDrops, bumpDrop]

theorem stepAcc_counts (acc : SrcAcc) (d : Bool) (r : BlockResult)
    (hshape : (d = false ∧ (r = .dropped "too_short" ∨ r = .dropped "no_date"))
      ∨ (d = true ∧ (r = .dropped "out_of_window" ∨ r = .dropped "no_title"
          ∨ r = .dropped "virtual_without_metro" ∨ r = .dropped "not_target_metro"
          ∨ ∃ ev : Event, r = .kept ev))) :
    (stepAcc acc (d, r)).events.length + sumDrops (stepAcc acc (d, r)).drops
        = acc.events.length + sumDrops acc.drops + 1
    ∧ (stepAcc acc (d, r)).events.length + lateDrops (stepAcc acc (d, r)).drops
          + acc.dated
        = acc.events.length + lateDrops acc.drops + (stepAcc acc (d, r)).dated := by
  rcases hshape with ⟨rfl, hr⟩ | ⟨rfl, hr⟩
  · rcases hr with rfl | rfl <;>
      simp [stepAcc, sumDrops_bump, lateDrops_bump_early] <;> omega
  · rcases hr with rfl | rfl | rfl | rfl | ⟨ev, rfl⟩ <;>
      simp [stepAcc, sumDrops_bump, lateDrops_bump_late] <;> omega

theorem buildLoop_invariant (org group src : String) (today : Ymd) :
    ∀ (bs : List Node) (acc acc2 : SrcAcc),
      buildLoop org group src today bs acc = .ok acc2 →
        acc2.events.length + sumDrops acc2.drops =
          acc.events.length + sumDrops acc.drops + bs.length
        ∧ acc2.events.length + lateDrops acc2.drops + acc.dated =
          acc.events.length + lateDrops acc.drops + acc2.dated := by
  intro bs
  induction bs with
  | nil =>
    intro acc acc2 h
    have h2 : acc = acc2 := by
      simpa [buildLoop] using h
    subst h2
    exact ⟨rfl, rfl⟩
  | cons b bs2 ih =>
    intro acc acc2 h
    cases hp : processBlock org group src today b with
    | error e =>
      rw [buildLoop] at h
      rw [hp] at h
      simp at h
    | ok res =>
      rw [buildLoop_cons org group src today b bs2 acc res hp] at h
      obtain ⟨d, r⟩ := res
      have hstep := stepAcc_counts acc d r (processBlock_ok_shape org group src today b d r hp)
      have ih2 := ih (stepAcc acc (d, r)) acc2 h
      constructor
      · have g1 := ih2.1
        have g2 := hstep.1
        simp only [List.length_cons]
        omega
      · have g1 := ih2.2
        have g2 := hstep.2
        omega

/-- C10: for a successfully processed source the diagnostics satisfy
candidates_total equal to events_kept plus the sum of all drop counters,
and dated_blocks equal to events_kept plus the counters of the four
post-date drop reasons; events_kept equals the length of the returned
event list. -/
theorem c10_diagnostics (org group src : String) (today : Ymd) (doc : NodeList)
    (evs : List Event) (log : PerSourceLog)
    (h : build_events_from_html org group src today doc = .ok (evs, log)) :
    log.candidates_total = log.events_kept + sumDrops log.drops
    ∧ log.dated_blocks = log.events_kept + lateDrops log.drops
    ∧ log.events_kept = evs.length := by
  simp only [build_events_from_html] at h
  cases hb : buildLoop org group src today ((extract_candidate_blocks doc).map Prod.snd)
      ⟨[], 0, fun _ => 0⟩ with
  | error e => rw [hb] at h; simp at h
  | ok acc =>
    rw [hb] at h
    simp only [Except.ok.injEq, Prod.mk.injEq] at h
    have hinv := buildLoop_invariant org group src today _ _ _ hb
    have h0sum : sumDrops (fun _ => 0) = 0 := rfl
    have h0late : lateDrops (fun _ => 0) = 0 := rfl
    obtain ⟨hevs, hlog⟩ := h
    subst hevs
    cases hlog
    have k1 : acc.events.length + sumDrops acc.drops =
        ((extract_candidate_blocks doc).map Prod.snd).length := by
      have g := hinv.1
      simpa [sumDrops] using g
    have k2 : acc.events.length + lateDrops acc.drops = acc.dated := by
      have g := hinv.2
      simpa [lateDrops] using g
    refine ⟨?_, ?_, rfl⟩
    · show ((extract_candidate_blocks doc).map Prod.snd).length =
        acc.events.length + sumDrops acc.drops
      omega
    · show acc.dated = acc.events.length + lateDrops acc.drops
      omega

theorem c10_diagnostics_witness :
    c10Log.candidates_total = c10Log.events_kept + sumDrops c10Log.drops
    ∧ c10Log.dated_blocks = c10Log.events_kept + lateDrops c10Log.drops :=
  ⟨(c10_diagnostics "Org" "Grp" "https://s.example/x" ⟨2026, 2, 1⟩ c10Doc
      [c1GoodEvent] c10Log (by rfl)).1,
   (c10_diagnostics "Org" "Grp" "https://s.example/x" ⟨2026, 2, 1⟩ c10Doc
      [c1GoodEvent] c10Log (by rfl)).2.1⟩

theorem dedupeGo_sublist : ∀ (evs : List Event) (seen : List (String × String × String)),
    List.Sublist (dedupeGo seen evs) evs := by
  intro evs
  induction evs with
  | nil => intro seen; exact List.Sublist.refl _
  | cons e rest ih =>
    intro seen
    simp only [dedupeGo]
    split_ifs with h
    · exact (ih seen).cons e
    · exact (ih _).cons₂ e

theorem dedupeGo_complete : ∀ (evs : List Event) (seen : List (String × String × String))
    (e : Event), e ∈ evs →
    event_key e ∈ seen ∨ ∃ e2, e2 ∈ dedupeGo seen evs ∧ event_key e2 = event_key e := by
  intro evs
  induction evs with
  | nil => intro seen e he; simp at he
  | cons f rest ih =>
    intro seen e he
    simp only [dedupeGo]
    rcases List.mem_cons.mp he with rfl | he2
    · split_ifs with h
      · exact Or.inl h
      · exact Or.inr ⟨e, List.mem_cons_self _ _, rfl⟩
    · split_ifs with h
      · exact ih seen e he2
      · rcases ih (event_key f :: seen) e he2 with hseen | ⟨e2, hmem, hkey⟩
        · rcases List.mem_cons.mp hseen with heq | hseen2
          · exact Or.inr ⟨f, List.mem_cons_self _ _, heq.symm⟩
          · exact Or.inl hseen2
        · exact Or.inr ⟨e2, List.mem_cons_of_mem _ hmem, hkey⟩

theorem dedupeGo_nodup : ∀ (evs : List Event) (seen : List (String × String × String)),
    ((dedupeGo seen evs).map event_key).Nodup
    ∧ ∀ e ∈ dedupeGo seen evs, event_key e ∉ seen := by
  intro evs
  induction evs with
  | nil => intro seen; simp [dedupeGo]
  | cons f rest ih =>
    intro seen
    simp only [dedupeGo]
    split_ifs with h
    · exact ih seen
    · constructor
      · simp only [List.map_cons, List.nodup_cons]
        constructor
        · intro hmem
          rcases List.mem_map.mp hmem with ⟨e2, he2, hkey⟩
          have := (ih (event_key f :: seen)).2 e2 he2
          exact this (by rw [hkey]; exact List.mem_cons_self _ _)
        · exact (ih (event_key f :: seen)).1
      · intro e he
        rcases List.mem_cons.mp he with rfl | he2
        · exact h
        · have := (ih (event_key f :: seen)).2 e he2
          intro hc
          exact this (List.mem_cons_of_mem _ hc)

theorem dedupeGo_first_kept : ∀ (evs : List Event) (seen : List (String × String × String))
    (n : Nat) (e : Event), evs.get? n = some e → event_key e ∉ seen →
    (∀ m : Nat, ∀ e2 : Event, m < n → evs.get? m = some e2 →
      event_key e2 ≠ event_key e) →
    e ∈ dedupeGo seen evs := by
  intro evs
  induction evs with
  | nil => intro seen n e hg; simp at hg
  | cons f rest ih =>
    intro seen n e hg hs hfirst
    simp only [dedupeGo]
    cases n with
    | zero =>
      simp only [List.get?] at hg
      cases hg
      rw [if_neg hs]
      exact List.mem_cons_self _ _
    | succ n2 =>
      simp only [List.get?] at hg
      have hne : event_key f ≠ event_key e :=
        hfirst 0 f (Nat.succ_pos n2) rfl
      have hfirst2 : ∀ m : Nat, ∀ e2 : Event, m < n2 → rest.get? m = some e2 →
          event_key e2 ≠ event_key e := by
        intro m e2 hm hgm
        exact hfirst (m + 1) e2 (Nat.succ_lt_succ hm) hgm
      split_ifs with h
      · exact ih seen n2 e hg hs hfirst2
      · refine List.mem_cons_of_mem _ (ih (event_key f :: seen) n2 e hg ?_ hfirst2)
        intro hc
        rcases List.mem_cons.mp hc with heq | hse
        · exact hne heq.symm
        · exact hs hse

/-- C7: deduplication returns a sublist of the input in which every
input key is still represented, no key occurs twice, the first
occurrence of each key is the one kept, and two events equal in key but
different elsewhere collapse to the first. -/
theorem c7_dedupe :
    (∀ evs : List Event, List.Sublist (dedupe evs) evs)
    ∧ (∀ evs : List Event, ∀ e : Event, e ∈ evs →
        ∃ e2, e2 ∈ dedupe evs ∧ event_key e2 = event_key e)
    ∧ (∀ evs : List Event, ((dedupe evs).map event_key).Nodup)
    ∧ (∀ evs : List Event, ∀ n : Nat, ∀ e : Event, evs.get? n = some e →
        (∀ m : Nat, ∀ e2 : Event, m < n → evs.get? m = some e2 →
          event_key e2 ≠ event_key e) →
        e ∈ dedupe evs)
    ∧ (∀ e1 e2 : Event, event_key e1 = event_key e2 → dedupe [e1, e2] = [e1]) := by
  refine ⟨?_, ?_, ?_, ?_, ?_⟩
  · intro evs
    exact dedupeGo_sublist evs []
  · intro evs e he
    rcases dedupeGo_complete evs [] e he with hseen | hgood
    · simp at hseen
    · exact hgood
  · intro evs
    exact (dedupeGo_nodup evs []).1
  · intro evs n e hg hfirst
    exact dedupeGo_first_kept evs [] n e hg (by simp) hfirst
  · intro e1 e2 h
    simp [dedupe, dedupeGo, h]

theorem c7_dedupe_witness : dedupe [w7a, w7b] = [w7a] :=
  c7_dedupe.2.2.2.2 w7a w7b (by decide)

theorem charEq_of_toNat (c d : Char) (h : c.toNat = d.toNat) : c = d := by
  have hc := Char.ofNat_toNat c
  have hd := Char.ofNat_toNat d
  rw [← hc, ← hd, h]

theorem strLtB_irrefl : ∀ a : List Char, strLtB a a = false := by
  intro a
  induction a with
  | nil => rfl
  | cons c cs ih => simp [strLtB, ih]

theorem strLtB_trans : ∀ a b c : List Char,
    strLtB a b = true → strLtB b c = true → strLtB a c = true := by
  intro a
  induction a with
  | nil =>
    intro b c h1 h2
    cases b with
    | nil => simp [strLtB] at h1
    | cons y ys =>
      cases c with
      | nil => simp [strLtB] at h2
      | cons z zs => rfl
  | cons x xs ih =>
    intro b c h1 h2
    cases b with
    | nil => simp [strLtB] at h1
    | cons y ys =>
      cases c with
      | nil => simp [strLtB] at h2
      | cons z zs =>
        simp only [strLtB] at h1 h2 ⊢
        rcases Nat.lt_trichotomy x.toNat y.toNat with hxy | hxy | hxy
        · rcases Nat.lt_trichotomy y.toNat z.toNat with hyz | hyz | hyz
          · rw [if_pos (Nat.lt_trans hxy hyz)]
          · rw [if_pos (hyz ▸ hxy)]
          · rw [if_neg (by omega), if_pos hyz] at h2
            simp at h2
        · have hc := charEq_of_toNat x y hxy
          subst hc
          rw [if_neg (by omega), if_neg (by omega)] at h1
          rcases Nat.lt_trichotomy x.toNat z.toNat with hyz | hyz | hyz
          · rw [if_pos hyz]
          · have hc2 := charEq_of_toNat x z hyz
            subst hc2
            rw [if_neg (by omega), if_neg (by omega)] at h2 ⊢
            exact ih ys zs h1 h2
          · rw [if_neg (by omega), if_pos hyz] at h2
            simp at h2
        · rw [if_neg (by omega), if_pos hxy] at h1
          simp at h1

theorem strLtB_total : ∀ a b : List Char,
    strLtB a b = true ∨ strLtB b a = true ∨ a = b := by
  intro a
  induction a with
  | nil =>
    intro b
    cases b with
    | nil => exact Or.inr (Or.inr rfl)
    | cons y ys => exact Or.inl rfl
  | cons x xs ih =>
    intro b
    cases b with
    | nil => exact Or.inr (Or.inl rfl)
    | cons y ys =>
      rcases Nat.lt_trichotomy x.toNat y.toNat with h | h | h
      · left
        simp only [strLtB]
        rw [if_pos h]
      · have hc := charEq_of_toNat x y h
        subst hc
        rcases ih ys with h2 | h2 | h2
        · left
          simp only [strLtB]
          rw [if_neg (by omega), if_neg (by omega)]
          exact h2
        · right; left
          simp only [strLtB]
          rw [if_neg (by omega), if_neg (by omega)]
          exact h2
        · right; right
          rw [h2]
      · right; left
        simp only [strLtB]
        rw [if_pos h]

theorem strLtB_asymm (a b : List Char) (h : strLtB a b = true) : strLtB b a = false := by
  cases hba : strLtB b a with
  | false => rfl
  | true =>
    have h2 := strLtB_trans a b a h hba
    rw [strLtB_irrefl] at h2
    simp at h2

theorem strLtB_le_trans (a b c : List Char) (h1 : strLtB b a = false)
    (h2 : strLtB c b = false) : strLtB c a = false := by
  cases hca : strLtB c a with
  | false => rfl
  | true =>
    rcases strLtB_total a b with hab | hab | heq
    · have h3 := strLtB_trans c a b hca hab
      rw [h2] at h3
      simp at h3
    · rw [hab] at h1
      simp at h1
    · subst heq
      rw [hca] at h2
      simp at h2

instance : IsTotal Event sortLe := by
  constructor
  intro x y
  unfold sortLe
  rcases strLtB_total (sortKey x).1 (sortKey y).1 with h | h | h
  · exact Or.inl (Or.inl h)
  · exact Or.inr (Or.inl h)
  · rcases strLtB_total (sortKey x).2.1 (sortKey y).2.1 with h2 | h2 | h2
    · exact Or.inl (Or.inr ⟨h, Or.inl h2⟩)
    · exact Or.inr (Or.inr ⟨h.symm, Or.inl h2⟩)
    · cases h3 : strLtB (sortKey y).2.2 (sortKey x).2.2 with
      | false => exact Or.inl (Or.inr ⟨h, Or.inr ⟨h2, rfl⟩⟩)
      | true =>
        exact Or.inr (Or.inr ⟨h.symm, Or.inr ⟨h2.symm, strLtB_asymm _ _ h3⟩⟩)

instance : IsTrans Event sortLe := by
  constructor
  intro x y z h1 h2
  unfold sortLe at h1 h2 ⊢
  rcases h1 with h1 | ⟨e1, g1⟩
  · rcases h2 with h2 | ⟨e2, g2⟩
    · exact Or.inl (strLtB_trans _ _ _ h1 h2)
    · rw [← e2]
      exact Or.inl h1
  · rcases h2 with h2 | ⟨e2, g2⟩
    · rw [e1]
      exact Or.inl h2
    · refine Or.inr ⟨e1.trans e2, ?_⟩
      rcases g1 with g1 | ⟨f1, k1⟩
      · rcases g2 with g2 | ⟨f2, k2⟩
        · exact Or.inl (strLtB_trans _ _ _ g1 g2)
        · rw [← f2]
          exact Or.inl g1
      · rcases g2 with g2 | ⟨f2, k2⟩
        · rw [f1]
          exact Or.inl g2
        · exact Or.inr ⟨f1.trans f2, strLtB_le_trans _ _ _ k1 k2⟩

/-- C8: sorting permutes the input, orders it by the key tuple of start
date, start time with the empty time read as 00:00, and case-folded
title, and on the three events of the example of the spec it returns
the 02-15 event, then the untimed 03-01 event, then the 09:00 one. -/
theorem c8_sort_events :
    (∀ evs : List Event, List.Perm (sort_events evs) evs)
    ∧ (∀ evs : List Event, List.Sorted sortLe (sort_events evs))
    ∧ sort_events [e8a, e8b, e8c] = [e8c, e8a, e8b] := by
  refine ⟨?_, ?_, by decide⟩
  · intro evs
    exact List.perm_insertionSort sortLe evs
  · intro evs
    exact List.sorted_insertionSort sortLe evs

theorem dedupIdx_nodup : ∀ (l : List (Nat × Node)) (seen : List Nat),
    ((dedupIdx seen l).map Prod.fst).Nodup ∧ ∀ p ∈ dedupIdx seen l, p.1 ∉ seen := by
  intro l
  induction l with
  | nil => intro seen; simp [dedupIdx]
  | cons p rest ih =>
    intro seen
    simp only [dedupIdx]
    split_ifs with h
    · exact ih seen
    · constructor
      · simp only [List.map_cons, List.nodup_cons]
        constructor
        · intro hmem
          rcases List.mem_map.mp hmem with ⟨q, hq, hkey⟩
          have h2 := (ih (p.1 :: seen)).2 q hq
          exact h2 (by rw [hkey]; exact List.mem_cons_self _ _)
        · exact (ih (p.1 :: seen)).1
      · intro q hq
        rcases List.mem_cons.mp hq with rfl | hq2
        · exact h
        · have h2 := (ih (p.1 :: seen)).2 q hq2
          intro hc
          exact h2 (List.mem_cons_of_mem _ hc)

theorem dedupIdx_subset : ∀ (l : List (Nat × Node)) (seen : List Nat),
    ∀ p ∈ dedupIdx seen l, p ∈ l := by
  intro l
  induction l with
  | nil => intro seen p hp; simp [dedupIdx] at hp
  | cons q rest ih =>
    intro seen p hp
    simp only [dedupIdx] at hp
    split_ifs at hp with h
    · exact List.mem_cons_of_mem _ (ih seen p hp)
    · rcases List.mem_cons.mp hp with rfl | hp2
      · exact List.mem_cons_self _ _
      · exact List.mem_cons_of_mem _ (ih _ p hp2)

/-- C9: the extractor returns at most 120 blocks, never returns the
same underlying node twice, and uses the broad fallback scan only when
the combined selector pass is empty: with a non-empty selector pass
every returned block comes from that pass, and with an empty one every
returned block comes from the fallback scan. -/
theorem c9_extractor :
    (∀ doc : NodeList,
      (extract_candidate_blocks doc).length ≤ MAX_CANDIDATES_PER_SOURCE)
    ∧ (∀ doc : NodeList, ((extract_candidate_blocks doc).map Prod.fst).Nodup)
    ∧ (∀ doc : NodeList, (selPass doc).isEmpty = false →
        ∀ p ∈ extract_candidate_blocks doc, p ∈ selPass doc)
    ∧ (∀ doc : NodeList, (selPass doc).isEmpty = true →
        ∀ p ∈ extract_candidate_blocks doc, p ∈ fallbackScan doc) := by
  refine ⟨?_, ?_, ?_, ?_⟩
  · intro doc
    simp only [extract_candidate_blocks]
    exact List.length_take_le _ _
  · intro doc
    simp only [extract_candidate_blocks]
    have h1 := (dedupIdx_nodup (if (selPass doc).isEmpty then fallbackScan doc
      else selPass doc) []).1
    have h2 : List.Sublist
        ((List.take MAX_CANDIDATES_PER_SOURCE (dedupIdx []
          (if (selPass doc).isEmpty then fallbackScan doc else selPass doc))).map Prod.fst)
        ((dedupIdx [] (if (selPass doc).isEmpty then fallbackScan doc
          else selPass doc)).map Prod.fst) :=
      (List.take_sublist _ _).map Prod.fst
    exact List.Nodup.sublist h2 h1
  · intro doc h p hp
    simp only [extract_candidate_blocks, h] at hp
    simp only [Bool.false_eq_true, if_false] at hp
    have hp2 := List.mem_of_mem_take hp
    exact dedupIdx_subset _ [] p hp2
  · intro doc h p hp
    simp only [extract_candidate_blocks, h, if_true] at hp
    have hp2 := List.mem_of_mem_take hp
    exact dedupIdx_subset _ [] p hp2

theorem c9_extractor_witness : (0, c9Art) ∈ selPass c9Doc := by
  refine c9_extractor.2.2.1 c9Doc rfl (0, c9Art) ?_
  have he : extract_candidate_blocks c9Doc = [(0, c9Art), (1, c9Li)] := rfl
  rw [he]
  exact List.mem_cons_self _ _
